import Mathlib

/-!
Verification of the One-Max evolutionary-algorithm program (`main.py`).

The program builds a population of 300 bit-vector individuals of length 100,
evaluates them with `evalOneMax` (the number of 1-bits), and runs a
generational loop: tournament selection, cloning, two-point crossover with
probability CXPB = 0.5, bit-flip mutation with probability MUTPB = 0.2,
re-evaluation of the individuals whose cached fitness was invalidated, and
whole-population replacement, until the best fitness reaches 100 or 1000
generations have run, printing min/max/mean/std statistics each generation.

Embedding choices:
- An `Individual` is its allele list together with its cached fitness;
  DEAP's `fitness.valid` flag (valid iff `values` is populated, cleared by
  `del fitness.values`) is an `Option Nat`: `none` is invalid.
- Randomness is an explicit oracle: every generation receives a `GenRand`
  record holding the tournament index draws, the per-pair crossover draws
  (a rational compared against CXPB, plus the two crossover points) and the
  per-individual mutation draws.  Fixing the random seed in the program
  fixes this oracle.
- The DEAP library operators (`tools.cxTwoPoint`, `tools.mutFlipBit`,
  `tools.selTournament`, `toolbox.clone`) are not part of the repository
  source; they are modelled from the specification's description of their
  contracts, and marked `Modelled from the spec:` below.
- Python floats are modelled by `ℚ` (exact arithmetic); the final square
  root of the standard deviation is taken in `ℝ` at the statement level.
-/

namespace OneMax

/-- One candidate solution: the allele list (`creator.Individual`, a list of
bits) together with its cached fitness.  DEAP's fitness validity flag is
modelled by `Option`: `none` means `fitness.valid` is false. -/
structure Individual where
  alleles : List Nat
  fitness : Option Nat
  deriving DecidableEq, Repr

/-- Default individual used for out-of-range accesses in the model. -/
def defaultInd : Individual := ⟨[], none⟩

/-- The evaluation function of `main.py` (`evalOneMax`): the sum of the
alleles, i.e. the number of 1-bits.  The Python function returns the
one-element tuple `(sum(individual),)`; we keep the single objective value. -/
def evalOneMax (ind : List Nat) : Nat := ind.sum

/-- The single cached objective value `ind.fitness.values[0]` (0 as a
placeholder when the fitness is invalid; the program only reads it on valid
individuals). -/
def fitVal (ind : Individual) : Nat := ind.fitness.getD 0

/-- The fitness of every member of a population is valid
(`ind.fitness.valid` in DEAP terms). -/
def allValid (pop : List Individual) : Prop :=
  ∀ ind ∈ pop, ind.fitness.isSome = true

instance (pop : List Individual) : Decidable (allValid pop) :=
  List.decidableBAll _ pop

/-- Randomness consumed by one generation of the loop, made explicit.
`selDraw t` is the list of population indices sampled by the `t`-th
tournament; `cxDraw p` is, for the `p`-th adjacent pair, the uniform draw
compared against CXPB together with the two crossover points; `mutDraw m`
is, for the `m`-th offspring, the uniform draw compared against MUTPB
together with the per-allele flip decisions. -/
structure GenRand where
  selDraw : Nat → List Nat
  cxDraw : Nat → ℚ × Nat × Nat
  mutDraw : Nat → ℚ × List Bool

/-- Modelled from the spec: the core of DEAP's two-point crossover
(`tools.cxTwoPoint`, absent from the repository source): the allele
sub-range `[i, j)` is swapped between the two genomes.  `crossSwap i j k a b`
walks both allele lists in lockstep, position counter starting at `k`,
taking `b`'s allele on positions in `[i, j)` and `a`'s elsewhere. -/
def crossSwap (i j : Nat) : Nat → List Nat → List Nat → List Nat
  | k, a :: as, b :: bs =>
      (if i ≤ k ∧ k < j then b else a) :: crossSwap i j (k + 1) as bs
  | _, as, _ => as

/-- Modelled from the spec: two-point crossover with points `i < j ≤ N`
swaps the sub-range `[i, j)` between the two genomes, mutating both in
place; we return the pair of updated allele lists. -/
def cxTwoPoint (i j : Nat) (g1 g2 : List Nat) : List Nat × List Nat :=
  (crossSwap i j 0 g1 g2, crossSwap i j 0 g2 g1)

/-- Modelled from the spec: the support of the uniform crossover-point
draw: every index pair with `0 ≤ i < j ≤ N` is a possible outcome. -/
def cxDrawSupport (N : Nat) : Set (Nat × Nat) :=
  {p | p.1 < p.2 ∧ p.2 ≤ N}

/-- Modelled from the spec: DEAP's bit-flip mutation (`tools.mutFlipBit`,
absent from the repository source): each allele is toggled independently
with probability `indpb`; the per-allele outcomes of those draws are the
`flips` list. -/
def mutFlipBit : List Bool → List Nat → List Nat
  | f :: fs, x :: xs => (if f then 1 - x else x) :: mutFlipBit fs xs
  | _, xs => xs

/-- Modelled from the spec: one tournament of DEAP's tournament selection
(`tools.selTournament`, absent from the repository source): the sampled
candidates (population members at the drawn indices) are scanned and the
one with the best fitness value is kept. -/
def tournBest (pop : List Individual) (idxs : List Nat) : Individual :=
  (idxs.filterMap fun k => pop.get? k).foldl
    (fun best c => if fitVal best < fitVal c then c else best)
    (pop.headD defaultInd)

/-- Modelled from the spec: tournament selection with `K = pop.length`
(the program calls `toolbox.select(pop, len(pop))`): `K` independent
tournaments, each returning the best of its sampled subset; the same
individual may win several tournaments. -/
def selTournament (pop : List Individual) (draw : Nat → List Nat) :
    List Individual :=
  (List.range pop.length).map fun t => tournBest pop (draw t)

/-- The crossover pass of the loop (`main.py` lines 145-149): the offspring
list is walked in adjacent pairs `(0,1), (2,3), …` (Python's
`zip(offspring[::2], offspring[1::2])`); for pair number `k`, if the
uniform draw is below `cxpb` the pair is mated with `tools.cxTwoPoint`
in place and both children's fitnesses are deleted (`del
child.fitness.values`, here: set to `none`); a trailing unpaired
individual is left alone. -/
def cxPass (cxpb : ℚ) (d : Nat → ℚ × Nat × Nat) (k : Nat) :
    List Individual → List Individual
  | a :: b :: rest =>
      let p := d k
      if p.1 < cxpb then
        ⟨crossSwap p.2.1 p.2.2 0 a.alleles b.alleles, none⟩ ::
        ⟨crossSwap p.2.1 p.2.2 0 b.alleles a.alleles, none⟩ ::
        cxPass cxpb d (k + 1) rest
      else a :: b :: cxPass cxpb d (k + 1) rest
  | off => off

/-- The mutation pass of the loop (`main.py` lines 151-154): every
offspring, independently, is mutated with `tools.mutFlipBit` when its
uniform draw is below `mutpb`, and its fitness is then deleted. -/
def mutPass (mutpb : ℚ) (d : Nat → ℚ × List Bool) (k : Nat) :
    List Individual → List Individual
  | [] => []
  | a :: rest =>
      let p := d k
      (if p.1 < mutpb then ⟨mutFlipBit p.2 a.alleles, none⟩ else a) ::
      mutPass mutpb d (k + 1) rest

/-- The re-evaluation step of the loop (`main.py` lines 164-167):
`invalid_ind = [ind for ind in offspring if not ind.fitness.valid]` is
mapped through `toolbox.evaluate` and each invalid individual is assigned
its new fitness; valid individuals are not touched.  The second component
counts the evaluator invocations (one per element of `invalid_ind`). -/
def reevaluate : List Individual → List Individual × Nat
  | [] => ([], 0)
  | ind :: rest =>
      let r := reevaluate rest
      match ind.fitness with
      | some _ => (ind :: r.1, r.2)
      | none => (⟨ind.alleles, some (evalOneMax ind.alleles)⟩ :: r.1, r.2 + 1)

/-- One generation of the evolution loop (`main.py` lines 131-170):
selection, cloning (cloning is the identity on these immutable values; the
aliasing content of `toolbox.clone` is modelled separately by the store
model below), the crossover pass, the mutation pass, re-evaluation, and
whole-population replacement. -/
def generation (cxpb mutpb : ℚ) (pop : List Individual) (r : GenRand) :
    List Individual :=
  let offspring := selTournament pop r.selDraw
  let crossed := cxPass cxpb r.cxDraw 0 offspring
  let mutated := mutPass mutpb r.mutDraw 0 crossed
  (reevaluate mutated).1

/-- The loop guard's `max(fits)` (`main.py` line 124), the best fitness
value in the population (0 on an empty population; the program's
population always has 300 members). -/
def maxFit (pop : List Individual) : Nat :=
  (pop.map fitVal).foldl max 0

/-- The evolution loop (`main.py` lines 121-186): starting from generation
counter `g`, run generations while `max(fits) < 100 and g < 1000`,
returning the final population and generation counter. -/
def loopFrom (cxpb mutpb : ℚ) (rs : Nat → GenRand) (pop : List Individual)
    (g : Nat) : List Individual × Nat :=
  if 100 ≤ maxFit pop ∨ 1000 ≤ g then (pop, g)
  else loopFrom cxpb mutpb rs (generation cxpb mutpb pop (rs g)) (g + 1)
termination_by 1000 - g
decreasing_by
  simp only [not_or, not_le] at *
  omega

/-- The fresh population of `main.py` line 97 before any evaluation:
300 individuals whose alleles are the random bit draws, with no fitness
yet. -/
def initPop (bits : Nat → List Nat) : List Individual :=
  (List.range 300).map fun k => ⟨bits k, none⟩

/-- The initial whole-population evaluation (`main.py` lines 101-103):
every individual is evaluated and assigned its fitness. -/
def initEval (pop : List Individual) : List Individual :=
  pop.map fun ind => ⟨ind.alleles, some (evalOneMax ind.alleles)⟩

/-- The whole run of `main` (`main.py` lines 95-186) as a function of the
random bit draws of the initializer and the per-generation randomness:
CXPB = 0.5 and MUTPB = 0.2 as on line 110. -/
def mainRun (bits : Nat → List Nat) (rs : Nat → GenRand) :
    List Individual × Nat :=
  loopFrom (1/2) (1/5) rs (initEval (initPop bits)) 0

/-- Python's `min(fits)` (`main.py` line 183): the running minimum over the
list (0 on the empty list, on which Python would raise). -/
def statsMin : List ℚ → ℚ
  | [] => 0
  | x :: xs => xs.foldl min x

/-- Python's `max(fits)` (`main.py` line 184): the running maximum over the
list (0 on the empty list, on which Python would raise). -/
def statsMax : List ℚ → ℚ
  | [] => 0
  | x :: xs => xs.foldl max x

/-- The mean of `main.py` line 179: `sum(fits) / length`. -/
def statsMean (fits : List ℚ) : ℚ := fits.sum / fits.length

/-- The sum of squares of `main.py` line 180: `sum(x*x for x in fits)`. -/
def statsSum2 (fits : List ℚ) : ℚ := (fits.map fun x => x * x).sum

/-- The square of the standard deviation of `main.py` line 181:
`abs(sum2 / length - mean**2)`; the program then takes `** 0.5`, taken in
`ℝ` at the statement level since it is irrational. -/
def statsStdSq (fits : List ℚ) : ℚ :=
  |statsSum2 fits / fits.length - (statsMean fits) ^ 2|

/-- The fitness values of a population as rationals, as gathered on
`main.py` line 176: `fits = [ind.fitness.values[0] for ind in pop]`. -/
def ratFits (pop : List Individual) : List ℚ :=
  pop.map fun ind => (fitVal ind : ℚ)

/-- The per-generation statistics record printed by the loop:
(min, max, mean, squared std). -/
def genStats (pop : List Individual) : ℚ × ℚ × ℚ × ℚ :=
  (statsMin (ratFits pop), statsMax (ratFits pop),
   statsMean (ratFits pop), statsStdSq (ratFits pop))

/-- The observable trace of the evolution loop: for every generation the
loop actually runs, the population it produces together with the
statistics printed for it. -/
def loopTraceFrom (cxpb mutpb : ℚ) (rs : Nat → GenRand)
    (pop : List Individual) (g : Nat) :
    List (List Individual × ℚ × ℚ × ℚ × ℚ) :=
  if 100 ≤ maxFit pop ∨ 1000 ≤ g then []
  else
    let pop2 := generation cxpb mutpb pop (rs g)
    (pop2, genStats pop2) :: loopTraceFrom cxpb mutpb rs pop2 (g + 1)
termination_by 1000 - g
decreasing_by
  simp only [not_or, not_le] at *
  omega

/-- The configuration surface of the program: the constants wired into the
toolbox registrations and `main` (`main.py` lines 62-110). -/
structure Config where
  cxpb : ℚ
  mutpb : ℚ
  indpb : ℚ
  genomeLen : Nat
  popSize : Nat
  tournsize : Nat

/-- The program's hardcoded configuration: CXPB = 0.5, MUTPB = 0.2,
indpb = 0.05, genome length 100, population size 300, tournament size 3. -/
def programConfig : Config := ⟨1/2, 1/5, 1/20, 100, 300, 3⟩

/-- A configuration is valid when every probability lies in [0,1], the
genome length and population size are positive, and the tournament size
does not exceed the population size. -/
def validConfig (c : Config) : Prop :=
  0 ≤ c.cxpb ∧ c.cxpb ≤ 1 ∧ 0 ≤ c.mutpb ∧ c.mutpb ≤ 1 ∧
  0 ≤ c.indpb ∧ c.indpb ≤ 1 ∧
  0 < c.genomeLen ∧ 0 < c.popSize ∧ c.tournsize ≤ c.popSize

instance (c : Config) : Decidable (validConfig c) := by
  unfold validConfig
  infer_instance

/-! ### Store model for `toolbox.clone`

`toolbox.clone` is Python's `copy.deepcopy`, absent from the repository
source; its aliasing contract is modelled from the spec over an explicit
store: a genome is an index into a list of cells, and cloning appends an
independent copy of the cell at a fresh index, so that in-place updates to
one cell cannot reach the other. -/

/-- One heap cell of the store model: the genome's alleles and its cached
fitness. -/
structure Cell where
  alleles : List Nat
  fitness : Option Nat
  deriving DecidableEq, Repr

/-- Default cell for out-of-range store accesses. -/
def defaultCell : Cell := ⟨[], none⟩

/-- The store: a heap of genome cells, addressed by index. -/
abbrev Store := List Cell

/-- Modelled from the spec: `toolbox.clone` deep-copies the genome at
index `i` into a wholly independent fresh cell and returns its index. -/
def cloneG (s : Store) (i : Nat) : Store × Nat :=
  (s ++ [s.getD i defaultCell], s.length)

/-- In-place update of the alleles of the genome at index `i` (what the
crossover and mutation operators do to their operand). -/
def setAllelesG (s : Store) (i : Nat) (a : List Nat) : Store :=
  s.set i ⟨a, (s.getD i defaultCell).fitness⟩

/-- In-place update of the cached fitness of the genome at index `i`
(assignment of `fitness.values`, or its deletion with `none`). -/
def setFitnessG (s : Store) (i : Nat) (f : Option Nat) : Store :=
  s.set i ⟨(s.getD i defaultCell).alleles, f⟩

/-- Two-step list induction, matching the pair recursion of the crossover
pass. -/
def listPairInd {α : Type} (P : List α → Prop) (h0 : P []) (h1 : ∀ a, P [a])
    (h2 : ∀ a b l, P l → P (a :: b :: l)) : ∀ l, P l
  | [] => h0
  | [a] => h1 a
  | a :: b :: l => h2 a b l (listPairInd P h0 h1 h2 l)

/-- A concrete randomness oracle used to instantiate theorems on closed
inputs: every tournament samples index 0, every crossover draw is
(0, 0, 0) and every mutation draw is (1, []). -/
def zeroRand : GenRand := ⟨fun _ => [0], fun _ => (0, 0, 0), fun _ => (1, [])⟩

/-- The constant stream of `zeroRand` oracles. -/
def zeroRands : Nat → GenRand := fun _ => zeroRand

/-- A concrete one-member population holding a single zero bit. -/
def zeroPop : List Individual := [⟨[0], some 0⟩]

/-- A concrete one-member population already at the target fitness 100. -/
def fullPop : List Individual := [⟨[], some 100⟩]

/-! ### Helper lemmas -/

lemma getD_append_lt (s : Store) (c : Cell) (i : Nat) (h : i < s.length) :
    (s ++ [c]).getD i defaultCell = s.getD i defaultCell := by
  rw [List.getD_eq_getElem?_getD, List.getD_eq_getElem?_getD,
    List.getElem?_append_left h]

lemma getD_append_len (s : Store) (c : Cell) :
    (s ++ [c]).getD s.length defaultCell = c := by
  rw [List.getD_eq_getElem?_getD, List.getElem?_concat_length]
  rfl

lemma getD_set_ne (s : Store) (i j : Nat) (c : Cell) (h : j ≠ i) :
    (s.set j c).getD i defaultCell = s.getD i defaultCell := by
  rw [List.getD_eq_getElem?_getD, List.getD_eq_getElem?_getD,
    List.getElem?_set_ne h]

lemma crossSwap_getElem (i j : Nat) :
    ∀ (as bs : List Nat) (k m : Nat), as.length = bs.length →
      (crossSwap i j k as bs)[m]? =
        if i ≤ k + m ∧ k + m < j then bs[m]? else as[m]? := by
  intro as
  induction as with
  | nil =>
    intro bs k m h
    cases bs with
    | nil => simp [crossSwap]
    | cons b bs => simp at h
  | cons a as ih =>
    intro bs k m h
    cases bs with
    | nil => simp at h
    | cons b bs =>
      simp only [List.length_cons, Nat.add_right_cancel_iff] at h
      cases m with
      | zero =>
        simp only [crossSwap, Nat.add_zero, List.getElem?_cons_zero]
        split <;> rfl
      | succ m =>
        simp only [crossSwap, List.getElem?_cons_succ]
        rw [ih bs (k + 1) m h]
        rw [show k + 1 + m = k + (m + 1) from by omega]

lemma cxPass_length (cxpb : ℚ) (d : Nat → ℚ × Nat × Nat) :
    ∀ off k, (cxPass cxpb d k off).length = off.length := by
  refine listPairInd
    (fun off => ∀ k, (cxPass cxpb d k off).length = off.length) ?_ ?_ ?_
  · intro k; simp [cxPass]
  · intro a k; simp [cxPass]
  · intro a b l ih k
    simp only [cxPass]
    split <;> simp [ih (k + 1)]

lemma cxPass_drop (cxpb : ℚ) (d : Nat → ℚ × Nat × Nat) :
    ∀ off k, (cxPass cxpb d k off).drop (2 * (off.length / 2)) =
      off.drop (2 * (off.length / 2)) := by
  refine listPairInd
    (fun off => ∀ k, (cxPass cxpb d k off).drop (2 * (off.length / 2)) =
      off.drop (2 * (off.length / 2))) ?_ ?_ ?_
  · intro k; simp [cxPass]
  · intro a k; simp [cxPass]
  · intro a b l ih k
    have harith : 2 * ((b :: l).length.succ / 2) = 2 * (l.length / 2) + 2 := by
      simp only [List.length_cons]
      omega
    simp only [cxPass, List.length_cons, Nat.succ_eq_add_one] at *
    rw [show l.length + 1 + 1 = l.length + 2 from by omega,
        show 2 * ((l.length + 2) / 2) = 2 * (l.length / 2) + 2 from by omega]
    split <;> simp [List.drop_succ_cons, ih (k + 1)]

lemma cxPass_take_none (cxpb : ℚ) (d : Nat → ℚ × Nat × Nat)
    (hf : ∀ m, (d m).1 < cxpb) :
    ∀ off k, ∀ ind ∈ (cxPass cxpb d k off).take (2 * (off.length / 2)),
      ind.fitness = none := by
  refine listPairInd
    (fun off => ∀ k, ∀ ind ∈ (cxPass cxpb d k off).take (2 * (off.length / 2)),
      ind.fitness = none) ?_ ?_ ?_
  · intro k ind h; simp at h
  · intro a k ind h
    rw [show 2 * ([a].length / 2) = 0 from by simp] at h
    simp at h
  · intro a b l ih k ind hmem
    rw [show 2 * ((a :: b :: l).length / 2) = 2 * (l.length / 2) + 2 from by
      simp only [List.length_cons]; omega] at hmem
    simp only [cxPass, if_pos (hf k), List.take_succ_cons, List.mem_cons]
      at hmem
    rcases hmem with rfl | rfl | hmem
    · rfl
    · rfl
    · exact ih (k + 1) ind hmem

lemma mutPass_getElem_none (mutpb : ℚ) (d : Nat → ℚ × List Bool) :
    ∀ (off : List Individual) (k m : Nat) (ind : Individual),
      off[m]? = some ind → ind.fitness = none →
      ∃ ind2, (mutPass mutpb d k off)[m]? = some ind2 ∧ ind2.fitness = none := by
  intro off
  induction off with
  | nil => intro k m ind h; simp at h
  | cons a rest ih =>
    intro k m ind h hnone
    cases m with
    | zero =>
      obtain rfl : a = ind := by simpa using h
      simp only [mutPass, List.getElem?_cons_zero, Option.some.injEq]
      split
      · exact ⟨_, rfl, rfl⟩
      · exact ⟨a, rfl, hnone⟩
    | succ m =>
      simp only [List.getElem?_cons_succ] at h
      simp only [mutPass, List.getElem?_cons_succ]
      exact ih (k + 1) m ind h hnone

lemma mutPass_length (mutpb : ℚ) (d : Nat → ℚ × List Bool) :
    ∀ off k, (mutPass mutpb d k off).length = off.length := by
  intro off
  induction off with
  | nil => intro k; simp [mutPass]
  | cons a rest ih => intro k; simp [mutPass, ih (k + 1)]

lemma reevaluate_length : ∀ off, (reevaluate off).1.length = off.length := by
  intro off
  induction off with
  | nil => simp [reevaluate]
  | cons a rest ih =>
    cases hf : a.fitness <;> simp [reevaluate, hf, ih]

lemma reevaluate_count :
    ∀ off, (reevaluate off).2 =
      (off.filter fun ind => ind.fitness.isNone).length := by
  intro off
  induction off with
  | nil => simp [reevaluate]
  | cons a rest ih =>
    cases hf : a.fitness <;>
      simp [reevaluate, hf, ih, List.filter_cons, Option.isNone]

lemma reevaluate_getElem_valid :
    ∀ (off : List Individual) (m : Nat) (ind : Individual),
      off[m]? = some ind → ind.fitness.isSome = true →
      (reevaluate off).1[m]? = some ind := by
  intro off
  induction off with
  | nil => intro m ind h; simp at h
  | cons a rest ih =>
    intro m ind h hvalid
    cases m with
    | zero =>
      obtain rfl : a = ind := by simpa using h
      cases hf : a.fitness with
      | none => rw [hf] at hvalid; simp at hvalid
      | some v => simp [reevaluate, hf]
    | succ m =>
      simp only [List.getElem?_cons_succ] at h
      cases hf : a.fitness <;>
        simpa [reevaluate, hf] using ih m ind h hvalid

lemma reevaluate_getElem_invalid :
    ∀ (off : List Individual) (m : Nat) (ind : Individual),
      off[m]? = some ind → ind.fitness = none →
      (reevaluate off).1[m]? =
        some ⟨ind.alleles, some (evalOneMax ind.alleles)⟩ := by
  intro off
  induction off with
  | nil => intro m ind h; simp at h
  | cons a rest ih =>
    intro m ind h hnone
    cases m with
    | zero =>
      obtain rfl : a = ind := by simpa using h
      simp [reevaluate, hnone]
    | succ m =>
      simp only [List.getElem?_cons_succ] at h
      cases hf : a.fitness <;>
        simpa [reevaluate, hf] using ih m ind h hnone

lemma reevaluate_allValid : ∀ off, allValid (reevaluate off).1 := by
  intro off
  induction off with
  | nil => intro ind h; simp [reevaluate] at h
  | cons a rest ih =>
    intro ind hmem
    cases hf : a.fitness with
    | none =>
      simp only [reevaluate, hf, List.mem_cons] at hmem
      rcases hmem with rfl | hmem
      · rfl
      · exact ih ind hmem
    | some v =>
      simp only [reevaluate, hf, List.mem_cons] at hmem
      rcases hmem with rfl | hmem
      · simp [hf]
      · exact ih ind hmem

lemma generation_allValid (cxpb mutpb : ℚ) (pop : List Individual)
    (r : GenRand) : allValid (generation cxpb mutpb pop r) := by
  unfold generation
  exact reevaluate_allValid _

lemma initEval_allValid (pop : List Individual) : allValid (initEval pop) := by
  intro ind hmem
  simp only [initEval, List.mem_map] at hmem
  obtain ⟨a, _, rfl⟩ := hmem
  rfl

lemma foldl_min_spec :
    ∀ (xs : List ℚ) (x : ℚ), xs.foldl min x ∈ x :: xs ∧
      xs.foldl min x ≤ x ∧ ∀ y ∈ xs, xs.foldl min x ≤ y := by
  intro xs
  induction xs with
  | nil => intro x; simp
  | cons a l ih =>
    intro x
    obtain ⟨hmem, hle, hall⟩ := ih (min x a)
    refine ⟨?_, ?_, ?_⟩
    · simp only [List.foldl_cons]
      rcases List.mem_cons.mp hmem with h | h
      · rcases min_choice x a with hc | hc
        · rw [h, hc]; exact List.mem_cons_self _ _
        · rw [h, hc]; simp
      · exact List.mem_cons_of_mem _ (List.mem_cons_of_mem _ h)
    · simp only [List.foldl_cons]
      exact le_trans hle (min_le_left _ _)
    · intro y hy
      simp only [List.foldl_cons]
      rcases List.mem_cons.mp hy with h | h
      · subst h; exact le_trans hle (min_le_right _ _)
      · exact hall y h

lemma foldl_max_spec :
    ∀ (xs : List ℚ) (x : ℚ), xs.foldl max x ∈ x :: xs ∧
      x ≤ xs.foldl max x ∧ ∀ y ∈ xs, y ≤ xs.foldl max x := by
  intro xs
  induction xs with
  | nil => intro x; simp
  | cons a l ih =>
    intro x
    obtain ⟨hmem, hle, hall⟩ := ih (max x a)
    refine ⟨?_, ?_, ?_⟩
    · simp only [List.foldl_cons]
      rcases List.mem_cons.mp hmem with h | h
      · rcases max_choice x a with hc | hc
        · rw [h, hc]; exact List.mem_cons_self _ _
        · rw [h, hc]; simp
      · exact List.mem_cons_of_mem _ (List.mem_cons_of_mem _ h)
    · simp only [List.foldl_cons]
      exact le_trans (le_max_left _ _) hle
    · intro y hy
      simp only [List.foldl_cons]
      rcases List.mem_cons.mp hy with h | h
      · subst h; exact le_trans (le_max_right _ _) hle
      · exact hall y h

lemma loopFrom_unfold (cxpb mutpb : ℚ) (rs : Nat → GenRand)
    (pop : List Individual) (g : Nat) :
    loopFrom cxpb mutpb rs pop g =
      if 100 ≤ maxFit pop ∨ 1000 ≤ g then (pop, g)
      else loopFrom cxpb mutpb rs (generation cxpb mutpb pop (rs g)) (g + 1) := by
  rw [loopFrom]

lemma loopFrom_exit_aux (cxpb mutpb : ℚ) (rs : Nat → GenRand) :
    ∀ (n g : Nat) (pop : List Individual), 1000 - g ≤ n → g ≤ 1000 →
      g ≤ (loopFrom cxpb mutpb rs pop g).2 ∧
      (loopFrom cxpb mutpb rs pop g).2 ≤ 1000 ∧
      (100 ≤ maxFit (loopFrom cxpb mutpb rs pop g).1 ∨
        (loopFrom cxpb mutpb rs pop g).2 = 1000) := by
  intro n
  induction n with
  | zero =>
    intro g pop hn hg
    have hg1000 : g = 1000 := by omega
    subst hg1000
    rw [loopFrom_unfold, if_pos (Or.inr le_rfl)]
    exact ⟨le_rfl, le_rfl, Or.inr rfl⟩
  | succ n ih =>
    intro g pop hn hg
    rw [loopFrom_unfold]
    by_cases h : 100 ≤ maxFit pop ∨ 1000 ≤ g
    · rw [if_pos h]
      refine ⟨le_rfl, hg, ?_⟩
      rcases h with h | h
      · exact Or.inl h
      · exact Or.inr (by omega)
    · rw [if_neg h]
      push_neg at h
      obtain ⟨hg1, hg2, hg3⟩ :=
        ih (g + 1) (generation cxpb mutpb pop (rs g)) (by omega) (by omega)
      exact ⟨by omega, hg2, hg3⟩

lemma loopFrom_allValid_aux (cxpb mutpb : ℚ) (rs : Nat → GenRand) :
    ∀ (n g : Nat) (pop : List Individual), 1000 - g ≤ n → allValid pop →
      allValid (loopFrom cxpb mutpb rs pop g).1 := by
  intro n
  induction n with
  | zero =>
    intro g pop hn hpop
    rw [loopFrom_unfold, if_pos (Or.inr (by omega))]
    exact hpop
  | succ n ih =>
    intro g pop hn hpop
    rw [loopFrom_unfold]
    by_cases h : 100 ≤ maxFit pop ∨ 1000 ≤ g
    · rw [if_pos h]; exact hpop
    · rw [if_neg h]
      push_neg at h
      exact ih (g + 1) _ (by omega) (generation_allValid _ _ _ _)

/-! ### Claim theorems -/

/-- C1: in the evolution loop, the crossover pass deletes both children's
cached fitnesses atomically with every application of `toolbox.mate`
(immediately after the operator the fitness is `none`), the mutation pass
deletes the mutant's fitness atomically with every application of
`toolbox.mutate`, an invalid fitness is still invalid after the whole
mutation pass (the only step between the operators and re-evaluation),
and it remains invalid until the re-evaluation step assigns the freshly
evaluated fitness. -/
theorem mate_mutate_invalidate :
    (∀ (cxpb : ℚ) (d : Nat → ℚ × Nat × Nat) (k : Nat) (a b : Individual)
        (rest : List Individual), (d k).1 < cxpb →
      ∃ a2 b2, cxPass cxpb d k (a :: b :: rest) =
          a2 :: b2 :: cxPass cxpb d (k + 1) rest ∧
        a2.fitness = none ∧ b2.fitness = none) ∧
    (∀ (mutpb : ℚ) (d : Nat → ℚ × List Bool) (k : Nat) (a : Individual)
        (rest : List Individual), (d k).1 < mutpb →
      ∃ a2, mutPass mutpb d k (a :: rest) =
          a2 :: mutPass mutpb d (k + 1) rest ∧ a2.fitness = none) ∧
    (∀ (mutpb : ℚ) (d : Nat → ℚ × List Bool) (off : List Individual)
        (k m : Nat) (ind : Individual), off[m]? = some ind →
      ind.fitness = none →
      ∃ ind2, (mutPass mutpb d k off)[m]? = some ind2 ∧
        ind2.fitness = none) ∧
    (∀ (off : List Individual) (m : Nat) (ind : Individual),
      off[m]? = some ind → ind.fitness = none →
      (reevaluate off).1[m]? =
        some ⟨ind.alleles, some (evalOneMax ind.alleles)⟩) := by
  refine ⟨?_, ?_, mutPass_getElem_none, reevaluate_getElem_invalid⟩
  · intro cxpb d k a b rest h
    refine ⟨⟨crossSwap (d k).2.1 (d k).2.2 0 a.alleles b.alleles, none⟩,
      ⟨crossSwap (d k).2.1 (d k).2.2 0 b.alleles a.alleles, none⟩,
      ?_, rfl, rfl⟩
    simp only [cxPass]
    rw [if_pos h]
  · intro mutpb d k a rest h
    refine ⟨⟨mutFlipBit (d k).2 a.alleles, none⟩, ?_, rfl⟩
    simp only [mutPass]
    rw [if_pos h]

/-- Witness for C1 on closed inputs: a fired crossover pair, a fired
mutation, preservation of an invalid fitness through the mutation pass,
and re-evaluation of an invalid individual. -/
theorem mate_mutate_invalidate_witness :
    (∃ a2 b2, cxPass 1 (fun _ => (0, 1, 2)) 0
        [⟨[0, 1], some 1⟩, ⟨[1, 0], some 1⟩] =
        a2 :: b2 :: cxPass 1 (fun _ => (0, 1, 2)) 1 [] ∧
      a2.fitness = none ∧ b2.fitness = none) ∧
    (∃ a2, mutPass 1 (fun _ => (0, [true])) 0 [⟨[0], some 0⟩] =
        a2 :: mutPass 1 (fun _ => (0, [true])) 1 [] ∧ a2.fitness = none) ∧
    (∃ ind2, (mutPass 0 (fun _ => (1, [])) 0 [⟨[0], none⟩])[0]? = some ind2 ∧
      ind2.fitness = none) ∧
    (reevaluate [⟨[1, 1], none⟩]).1[0]? = some ⟨[1, 1], some (evalOneMax [1, 1])⟩ :=
  ⟨mate_mutate_invalidate.1 1 (fun _ => (0, 1, 2)) 0 ⟨[0, 1], some 1⟩
      ⟨[1, 0], some 1⟩ [] (by norm_num),
   mate_mutate_invalidate.2.1 1 (fun _ => (0, [true])) 0 ⟨[0], some 0⟩ []
      (by norm_num),
   mate_mutate_invalidate.2.2.1 0 (fun _ => (1, [])) [⟨[0], none⟩] 0 0
      ⟨[0], none⟩ rfl rfl,
   mate_mutate_invalidate.2.2.2 [⟨[1, 1], none⟩] 0 ⟨[1, 1], none⟩ rfl rfl⟩

/-- C2: the re-evaluation step calls the evaluator exactly once per
offspring with an invalid fitness (`K` calls when `K` of the `M` offspring
are invalid), keeps the offspring list length at `M`, and returns every
offspring whose fitness was valid completely unchanged. -/
theorem reevaluate_minimality :
    ∀ off : List Individual,
      (reevaluate off).2 =
        (off.filter fun ind => ind.fitness.isNone).length ∧
      (reevaluate off).1.length = off.length ∧
      ∀ (m : Nat) (ind : Individual), off[m]? = some ind →
        ind.fitness.isSome = true → (reevaluate off).1[m]? = some ind :=
  fun off => ⟨reevaluate_count off, reevaluate_length off,
    reevaluate_getElem_valid off⟩

/-- Witness for C2 on a closed offspring list with one valid and one
invalid member: one evaluator call, length preserved, the valid member
unchanged. -/
theorem reevaluate_minimality_witness :
    (reevaluate [⟨[1, 1], some 2⟩, ⟨[0, 1], none⟩]).2 =
      (([⟨[1, 1], some 2⟩, ⟨[0, 1], none⟩] : List Individual).filter
        fun ind => ind.fitness.isNone).length ∧
    (reevaluate [⟨[1, 1], some 2⟩, ⟨[0, 1], none⟩]).1[0]? =
      some ⟨[1, 1], some 2⟩ :=
  ⟨(reevaluate_minimality [⟨[1, 1], some 2⟩, ⟨[0, 1], none⟩]).1,
   (reevaluate_minimality [⟨[1, 1], some 2⟩, ⟨[0, 1], none⟩]).2.2 0
      ⟨[1, 1], some 2⟩ rfl rfl⟩

/-- C3: the evolution loop always terminates: the final generation counter
(which counts executed loop bodies, one increment per body) is at most
1000, on exit either the best fitness has reached the target 100 or
exactly 1000 generations have run, and the loop exits as soon as its
guard fails (a population at the target, or a counter at the cap, is
returned immediately with no further generation). -/
theorem loop_terminates :
    ∀ (cxpb mutpb : ℚ) (rs : Nat → GenRand) (pop : List Individual),
      (loopFrom cxpb mutpb rs pop 0).2 ≤ 1000 ∧
      (100 ≤ maxFit (loopFrom cxpb mutpb rs pop 0).1 ∨
        (loopFrom cxpb mutpb rs pop 0).2 = 1000) ∧
      ∀ (pop2 : List Individual) (g : Nat),
        100 ≤ maxFit pop2 ∨ 1000 ≤ g →
        loopFrom cxpb mutpb rs pop2 g = (pop2, g) := by
  intro cxpb mutpb rs pop
  obtain ⟨_, h2, h3⟩ :=
    loopFrom_exit_aux cxpb mutpb rs 1000 0 pop (by omega) (by omega)
  exact ⟨h2, h3, fun pop2 g h => by rw [loopFrom_unfold, if_pos h]⟩

/-- Witness for C3 on closed inputs: a population already at the target is
returned unchanged at once. -/
theorem loop_terminates_witness :
    (100 ≤ maxFit fullPop ∨ 1000 ≤ 0) ∧
    loopFrom (1/2) (1/5) zeroRands fullPop 0 = (fullPop, 0) :=
  ⟨by decide,
   (loop_terminates (1/2) (1/5) zeroRands fullPop).2.2 fullPop 0 (by decide)⟩

/-- C4: for a non-empty fitness list of length `M` the reporter computes
the true minimum and maximum, the mean `sum(fits)/M`, and the squared
standard deviation `|sum(x*x)/M - mean^2|` of the raw population formula
(whose square root the program prints); on `[1,2,3,4]` this gives min 1,
max 4, mean 5/2 and std `sqrt(5/4)` (that is, `sqrt(1.25)`). -/
theorem stats_spec :
    (∀ (fits : List ℚ) (M : Nat), fits ≠ [] → fits.length = M →
      statsMin fits ∈ fits ∧ (∀ y ∈ fits, statsMin fits ≤ y) ∧
      statsMax fits ∈ fits ∧ (∀ y ∈ fits, y ≤ statsMax fits) ∧
      statsMean fits = fits.sum / (M : ℚ) ∧
      statsStdSq fits = |statsSum2 fits / (M : ℚ) - (fits.sum / (M : ℚ)) ^ 2|) ∧
    (statsMin [1, 2, 3, 4] = 1 ∧ statsMax [1, 2, 3, 4] = 4 ∧
     statsMean [1, 2, 3, 4] = 5 / 2 ∧ statsStdSq [1, 2, 3, 4] = 5 / 4 ∧
     Real.sqrt ((statsStdSq [1, 2, 3, 4] : ℚ) : ℝ) =
       Real.sqrt ((5 : ℝ) / 4)) := by
  constructor
  · intro fits M hne hM
    subst hM
    cases fits with
    | nil => exact absurd rfl hne
    | cons x xs =>
      obtain ⟨hmem, hle, hall⟩ := foldl_min_spec xs x
      obtain ⟨hmem2, hle2, hall2⟩ := foldl_max_spec xs x
      refine ⟨hmem, ?_, hmem2, ?_, rfl, rfl⟩
      · intro y hy
        rcases List.mem_cons.mp hy with h | h
        · subst h; exact hle
        · exact hall y h
      · intro y hy
        rcases List.mem_cons.mp hy with h | h
        · subst h; exact hle2
        · exact hall2 y h
  · have h54 : statsStdSq [1, 2, 3, 4] = 5 / 4 := by
      norm_num [statsStdSq, statsSum2, statsMean]
    refine ⟨by norm_num [statsMin, min_def], by norm_num [statsMax, max_def],
      by norm_num [statsMean], h54, ?_⟩
    rw [h54]
    norm_num

/-- Witness for C4 on the closed list `[2, 7]` of length 2. -/
theorem stats_spec_witness :
    statsMin [2, 7] ∈ ([2, 7] : List ℚ) ∧
    (∀ y ∈ ([2, 7] : List ℚ), statsMin [2, 7] ≤ y) ∧
    statsMax [2, 7] ∈ ([2, 7] : List ℚ) ∧
    (∀ y ∈ ([2, 7] : List ℚ), y ≤ statsMax [2, 7]) ∧
    statsMean [2, 7] = ([2, 7] : List ℚ).sum / ((2 : Nat) : ℚ) ∧
    statsStdSq [2, 7] = |statsSum2 [2, 7] / ((2 : Nat) : ℚ) -
      (([2, 7] : List ℚ).sum / ((2 : Nat) : ℚ)) ^ 2| :=
  stats_spec.1 [2, 7] 2 (by simp) rfl

/-- C5: in the store model of `toolbox.clone` (deep copy), cloning genome
`i` yields a fresh index holding equal alleles and an equal fitness copy;
afterwards, updating the clone's alleles or assigning/deleting the
clone's fitness leaves the original cell unchanged, updating the
original's alleles or fitness leaves the clone's cell unchanged, and a
second clone of the same genome gets yet another distinct index (the case
of an individual selected several times). -/
theorem clone_independent :
    ∀ (s : Store) (i : Nat), i < s.length →
      (cloneG s i).2 ≠ i ∧
      (cloneG s i).1.getD (cloneG s i).2 defaultCell = s.getD i defaultCell ∧
      (∀ a, (setAllelesG (cloneG s i).1 (cloneG s i).2 a).getD i defaultCell =
        s.getD i defaultCell) ∧
      (∀ f, (setFitnessG (cloneG s i).1 (cloneG s i).2 f).getD i defaultCell =
        s.getD i defaultCell) ∧
      (∀ a, (setAllelesG (cloneG s i).1 i a).getD (cloneG s i).2 defaultCell =
        (cloneG s i).1.getD (cloneG s i).2 defaultCell) ∧
      (∀ f, (setFitnessG (cloneG s i).1 i f).getD (cloneG s i).2 defaultCell =
        (cloneG s i).1.getD (cloneG s i).2 defaultCell) ∧
      (cloneG (cloneG s i).1 i).2 ≠ (cloneG s i).2 := by
  intro s i hi
  have hne : s.length ≠ i := by omega
  refine ⟨hne, getD_append_len s _, ?_, ?_, ?_, ?_, ?_⟩
  · intro a
    show ((s ++ [s.getD i defaultCell]).set s.length _).getD i defaultCell = _
    rw [getD_set_ne _ _ _ _ hne, getD_append_lt s _ i hi]
  · intro f
    show ((s ++ [s.getD i defaultCell]).set s.length _).getD i defaultCell = _
    rw [getD_set_ne _ _ _ _ hne, getD_append_lt s _ i hi]
  · intro a
    show ((s ++ [s.getD i defaultCell]).set i _).getD s.length defaultCell = _
    rw [getD_set_ne _ _ _ _ (Ne.symm hne)]
    rfl
  · intro f
    show ((s ++ [s.getD i defaultCell]).set i _).getD s.length defaultCell = _
    rw [getD_set_ne _ _ _ _ (Ne.symm hne)]
    rfl
  · show (s ++ [s.getD i defaultCell]).length ≠ s.length
    simp

/-- Witness for C5 on a closed one-cell store. -/
theorem clone_independent_witness :
    (0 : Nat) < ([⟨[7], some 7⟩] : Store).length ∧
    ((cloneG [⟨[7], some 7⟩] 0).2 ≠ 0 ∧
      (cloneG [⟨[7], some 7⟩] 0).1.getD (cloneG [⟨[7], some 7⟩] 0).2
        defaultCell = ([⟨[7], some 7⟩] : Store).getD 0 defaultCell ∧
      (∀ a, (setAllelesG (cloneG [⟨[7], some 7⟩] 0).1
          (cloneG [⟨[7], some 7⟩] 0).2 a).getD 0 defaultCell =
        ([⟨[7], some 7⟩] : Store).getD 0 defaultCell) ∧
      (∀ f, (setFitnessG (cloneG [⟨[7], some 7⟩] 0).1
          (cloneG [⟨[7], some 7⟩] 0).2 f).getD 0 defaultCell =
        ([⟨[7], some 7⟩] : Store).getD 0 defaultCell) ∧
      (∀ a, (setAllelesG (cloneG [⟨[7], some 7⟩] 0).1 0 a).getD
          (cloneG [⟨[7], some 7⟩] 0).2 defaultCell =
        (cloneG [⟨[7], some 7⟩] 0).1.getD (cloneG [⟨[7], some 7⟩] 0).2
          defaultCell) ∧
      (∀ f, (setFitnessG (cloneG [⟨[7], some 7⟩] 0).1 0 f).getD
          (cloneG [⟨[7], some 7⟩] 0).2 defaultCell =
        (cloneG [⟨[7], some 7⟩] 0).1.getD (cloneG [⟨[7], some 7⟩] 0).2
          defaultCell) ∧
      (cloneG (cloneG [⟨[7], some 7⟩] 0).1 0).2 ≠
        (cloneG [⟨[7], some 7⟩] 0).2) :=
  ⟨by decide, clone_independent [⟨[7], some 7⟩] 0 (by decide)⟩

/-- C6 counterexample: the program performs no configuration validation at
all.  With the out-of-range crossover probability CXPB = 2 (an invalid
configuration), the evolution loop is still entered and executes its body
(the first unfolding step below goes through the else-branch, running a
full generation) instead of the configuration being rejected before the
loop starts; the embedded semantics has no rejection outcome anywhere. -/
theorem config_not_rejected_cex :
    ¬ validConfig ⟨2, 1/5, 1/20, 100, 300, 3⟩ ∧
    loopFrom 2 (1/5) zeroRands zeroPop 0 =
      loopFrom 2 (1/5) zeroRands (generation 2 (1/5) zeroPop (zeroRands 0)) 1 := by
  constructor
  · intro h
    obtain ⟨_, h2, _⟩ := h
    norm_num at h2
  · rw [loopFrom_unfold, if_neg (by decide)]

/-- C6 amended: the program never validates its configuration (no fail
fast path exists), but its configuration is hardcoded to the constants
CXPB = 0.5, MUTPB = 0.2, indpb = 0.05, genome length 100, population size
300 and tournament size 3, which satisfy every constraint (probabilities
in [0,1], positive sizes, tournament size at most the population size),
so an invalid configuration can never arise in a run. -/
theorem programConfig_valid : validConfig programConfig := by
  norm_num [validConfig, programConfig]

/-- C7: the registered crossover operator (modelled from the spec's
contract for `tools.cxTwoPoint`) swaps exactly the allele sub-range
`[i, j)` between the two genomes (position `k` of either output comes
from the other genome iff `i ≤ k < j`); with points (2,5) on
`[0,0,0,0,0,0]` and `[1,1,1,1,1,1]` it yields `[0,0,1,1,1,0]` and
`[1,1,0,0,0,1]`; and every index pair with `0 ≤ i < j ≤ N` is in the
support of the uniform crossover-point draw. -/
theorem cxTwoPoint_spec :
    (∀ (i j : Nat) (g1 g2 : List Nat) (m : Nat), g1.length = g2.length →
      ((cxTwoPoint i j g1 g2).1[m]? =
        if i ≤ m ∧ m < j then g2[m]? else g1[m]?) ∧
      ((cxTwoPoint i j g1 g2).2[m]? =
        if i ≤ m ∧ m < j then g1[m]? else g2[m]?)) ∧
    cxTwoPoint 2 5 [0, 0, 0, 0, 0, 0] [1, 1, 1, 1, 1, 1] =
      ([0, 0, 1, 1, 1, 0], [1, 1, 0, 0, 0, 1]) ∧
    (∀ N i j : Nat, i < j → j ≤ N → (i, j) ∈ cxDrawSupport N) := by
  refine ⟨?_, by decide, ?_⟩
  · intro i j g1 g2 m h
    constructor
    · have hc := crossSwap_getElem i j g1 g2 0 m h
      simpa [cxTwoPoint] using hc
    · have hc := crossSwap_getElem i j g2 g1 0 m h.symm
      simpa [cxTwoPoint] using hc
  · intro N i j h1 h2
    exact ⟨h1, h2⟩

/-- Witness for C7 on closed inputs: the positional characterization on
genomes `[5,6]` and `[7,8]` with points (1,2) at position 1, and the
membership of the pair (2,5) in the support for N = 6. -/
theorem cxTwoPoint_spec_witness :
    (((cxTwoPoint 1 2 [5, 6] [7, 8]).1[1]? =
        if 1 ≤ 1 ∧ 1 < 2 then ([7, 8] : List Nat)[1]?
        else ([5, 6] : List Nat)[1]?) ∧
      ((cxTwoPoint 1 2 [5, 6] [7, 8]).2[1]? =
        if 1 ≤ 1 ∧ 1 < 2 then ([5, 6] : List Nat)[1]?
        else ([7, 8] : List Nat)[1]?)) ∧
    (2, 5) ∈ cxDrawSupport 6 :=
  ⟨cxTwoPoint_spec.1 1 2 [5, 6] [7, 8] 1 rfl,
   cxTwoPoint_spec.2.2 6 2 5 (by decide) (by decide)⟩

/-- C8: the crossover pass walks the offspring in adjacent pairs; on an
odd-length offspring list it preserves the length, leaves the trailing
suffix after position `length - 1` (the single last individual, alleles
and fitness alike) exactly as it was, for every outcome of the draws, and
when every pair's coin fires each of the first `length - 1` individuals
is passed to the crossover operator (witnessed by its deleted fitness) —
so exactly one individual, the last, is never passed to `toolbox.mate`. -/
theorem cxPass_odd_spec :
    ∀ (cxpb : ℚ) (d : Nat → ℚ × Nat × Nat) (k : Nat)
      (off : List Individual), off.length % 2 = 1 →
      (cxPass cxpb d k off).length = off.length ∧
      (cxPass cxpb d k off).drop (off.length - 1) =
        off.drop (off.length - 1) ∧
      ((∀ m, (d m).1 < cxpb) →
        ∀ ind ∈ (cxPass cxpb d k off).take (off.length - 1),
          ind.fitness = none) := by
  intro cxpb d k off hodd
  have h2 : 2 * (off.length / 2) = off.length - 1 := by omega
  refine ⟨cxPass_length cxpb d off k, ?_, ?_⟩
  · rw [← h2]
    exact cxPass_drop cxpb d off k
  · intro hf ind hmem
    exact cxPass_take_none cxpb d hf off k ind (by rwa [h2] )

/-- Witness for C8 on a closed offspring list of odd length 3 with
always-firing draws. -/
theorem cxPass_odd_spec_witness :
    (cxPass 1 (fun _ => (0, 0, 1)) 0
        [⟨[0], some 0⟩, ⟨[1], some 1⟩, ⟨[0], some 0⟩]).length =
      ([⟨[0], some 0⟩, ⟨[1], some 1⟩, ⟨[0], some 0⟩] :
        List Individual).length ∧
    (cxPass 1 (fun _ => (0, 0, 1)) 0
        [⟨[0], some 0⟩, ⟨[1], some 1⟩, ⟨[0], some 0⟩]).drop 2 =
      ([⟨[0], some 0⟩, ⟨[1], some 1⟩, ⟨[0], some 0⟩] :
        List Individual).drop 2 ∧
    ∀ ind ∈ (cxPass 1 (fun _ => (0, 0, 1)) 0
        [⟨[0], some 0⟩, ⟨[1], some 1⟩, ⟨[0], some 0⟩]).take 2,
      ind.fitness = none := by
  obtain ⟨w1, w2, w3⟩ := cxPass_odd_spec 1 (fun _ => (0, 0, 1)) 0
    [⟨[0], some 0⟩, ⟨[1], some 1⟩, ⟨[0], some 0⟩] (by decide)
  exact ⟨w1, w2, w3 fun m => by norm_num⟩

/-- C9: the evolution loop is a deterministic function of the initial
population and the randomness source: two runs with equal crossover and
mutation probabilities, equal per-generation draw streams (a fixed seed
fixes the stream) and equal initial populations produce the same
generation-by-generation trace of populations and printed statistics, and
the same final population and generation count. -/
theorem loop_deterministic :
    ∀ (cxpb1 cxpb2 mutpb1 mutpb2 : ℚ) (rs1 rs2 : Nat → GenRand)
      (pop1 pop2 : List Individual),
      cxpb1 = cxpb2 → mutpb1 = mutpb2 → rs1 = rs2 → pop1 = pop2 →
      loopTraceFrom cxpb1 mutpb1 rs1 pop1 0 =
        loopTraceFrom cxpb2 mutpb2 rs2 pop2 0 ∧
      loopFrom cxpb1 mutpb1 rs1 pop1 0 =
        loopFrom cxpb2 mutpb2 rs2 pop2 0 := by
  intro cxpb1 cxpb2 mutpb1 mutpb2 rs1 rs2 pop1 pop2 h1 h2 h3 h4
  subst h1
  subst h2
  subst h3
  subst h4
  exact ⟨rfl, rfl⟩

/-- Witness for C9 on closed equal runs. -/
theorem loop_deterministic_witness :
    loopTraceFrom (1/2) (1/5) zeroRands zeroPop 0 =
      loopTraceFrom (1/2) (1/5) zeroRands zeroPop 0 ∧
    loopFrom (1/2) (1/5) zeroRands zeroPop 0 =
      loopFrom (1/2) (1/5) zeroRands zeroPop 0 :=
  loop_deterministic (1/2) (1/2) (1/5) (1/5) zeroRands zeroRands zeroPop
    zeroPop rfl rfl rfl rfl

/-- C10: every point at which the loop guard or the statistics read
`ind.fitness.values[0]`, the whole population is valid: the initial
evaluation validates the fresh population, every generation (ending in
the re-evaluation of exactly the invalidated offspring followed by
whole-population replacement) produces an all-valid population, the loop
preserves all-validity from an all-valid start, and on an all-valid
population every member's fitness value exists. -/
theorem allValid_spec :
    (∀ pop, allValid (initEval pop)) ∧
    (∀ (cxpb mutpb : ℚ) (pop : List Individual) (r : GenRand),
      allValid (generation cxpb mutpb pop r)) ∧
    (∀ (cxpb mutpb : ℚ) (rs : Nat → GenRand) (pop : List Individual)
      (g : Nat), allValid pop →
      allValid (loopFrom cxpb mutpb rs pop g).1) ∧
    (∀ pop, allValid pop → ∀ ind ∈ pop, ∃ v, ind.fitness = some v) := by
  refine ⟨initEval_allValid, generation_allValid, ?_, ?_⟩
  · intro cxpb mutpb rs pop g h
    exact loopFrom_allValid_aux cxpb mutpb rs 1000 g pop (by omega) h
  · intro pop h ind hmem
    have hs := h ind hmem
    cases hf : ind.fitness with
    | none => rw [hf] at hs; simp at hs
    | some v => exact ⟨v, rfl⟩

/-- Witness for C10 on closed inputs: the loop started on the all-valid
one-member population keeps it all-valid, and its member's fitness value
exists. -/
theorem allValid_spec_witness :
    allValid zeroPop ∧
    allValid (loopFrom (1/2) (1/5) zeroRands zeroPop 0).1 ∧
    ∀ ind ∈ zeroPop, ∃ v, ind.fitness = some v :=
  ⟨by decide,
   allValid_spec.2.2.1 (1/2) (1/5) zeroRands zeroPop 0 (by decide),
   allValid_spec.2.2.2 zeroPop (by decide)⟩

end OneMax
